import Mathlib

/-!
Verification of the tbl privacy-preserving tabulation backend.

The development shallowly embeds the core of `backend/app/core`:
the suppression engine (`suppression.py`), the differential-privacy
engine (`differential_privacy.py`), the command transformer and variable
validation (`parser.py`) and the query orchestrator (`query_engine.py`).
Pandas cells are modelled as `Option ℤ` (`none` is `NaN`), DataFrames as
rectangular tables of cells, and the Python string formatting
(`str(int)` / `pd.to_numeric(errors = coerce)` on integer strings) as a
verified decimal printer/parser pair over `List Char`.
-/

namespace Tbl

/-! ### Decimal printing and parsing

Models Python `str` on `int` values and `pd.to_numeric(..., errors="coerce")`
restricted to the strings this pipeline produces (decimal integer strings and
the suppression marker, which is not numeric and coerces to `NaN`). -/

/-- Numeric value of a decimal digit character, as Python `ord(c) - 48`. -/
def charVal (c : Char) : ℕ := c.toNat - 48

/-- One step of decimal accumulation while scanning left to right. -/
def foldStep (a : ℕ) (c : Char) : ℕ := a * 10 + charVal c

/-- Little-endian base-10 digits computed with explicit fuel (so that the
definition is structurally recursive and kernel-reducible). -/
def digitsFuel : ℕ → ℕ → List ℕ
  | 0, _ => []
  | fuel + 1, n => if n = 0 then [] else n % 10 :: digitsFuel fuel (n / 10)

theorem digitsFuel_eq_digits : ∀ (fuel n : ℕ), n ≤ fuel →
    digitsFuel fuel n = Nat.digits 10 n := by
  intro fuel
  induction fuel with
  | zero =>
    intro n hn
    have : n = 0 := Nat.le_zero.mp hn
    subst this
    simp [digitsFuel]
  | succ f ih =>
    intro n hn
    by_cases h0 : n = 0
    · subst h0; simp [digitsFuel]
    · have hdiv : n / 10 < n := Nat.div_lt_self (Nat.pos_of_ne_zero h0) (by norm_num)
      rw [digitsFuel, if_neg h0, ih (n / 10) (by omega),
        ← Nat.digits_def' (by norm_num : (1:ℕ) < 10) (Nat.pos_of_ne_zero h0)]

/-- Decimal rendering of a natural number, as Python `str`. -/
def printNat (n : ℕ) : List Char :=
  if n = 0 then ['0'] else ((digitsFuel n n).reverse.map Nat.digitChar)

theorem printNat_eq (n : ℕ) :
    printNat n = if n = 0 then ['0'] else ((Nat.digits 10 n).reverse.map Nat.digitChar) := by
  unfold printNat
  rw [digitsFuel_eq_digits n n le_rfl]

/-- Decimal rendering of an integer, as Python `str`. -/
def printInt (v : ℤ) : List Char :=
  if v < 0 then '-' :: printNat v.natAbs else printNat v.natAbs

/-- Parse an unsigned decimal string; `none` when the string is empty or has a
non-digit character (the coercion-to-`NaN` case of `pd.to_numeric`). -/
def parseNatChars (cs : List Char) : Option ℕ :=
  if cs = [] then none
  else if cs.all Char.isDigit then some (cs.foldl foldStep 0)
  else none

/-- Parse a signed decimal string, as `pd.to_numeric` on integer strings. -/
def parseIntChars : List Char → Option ℤ
  | [] => none
  | c :: cs =>
    if c = '-' then
      match parseNatChars cs with
      | some n => some (-(n : ℤ))
      | none => none
    else
      match parseNatChars (c :: cs) with
      | some n => some ((n : ℤ))
      | none => none

theorem digitChar_isDigit (d : ℕ) (h : d < 10) :
    (Nat.digitChar d).isDigit = true := by
  interval_cases d <;> decide

theorem charVal_digitChar (d : ℕ) (h : d < 10) :
    charVal (Nat.digitChar d) = d := by
  interval_cases d <;> decide

theorem foldDigits_eq_ofDigits (L : List ℕ) (h : ∀ d ∈ L, d < 10) :
    List.foldr (fun d acc => acc * 10 + charVal (Nat.digitChar d)) 0 L =
      Nat.ofDigits 10 L := by
  induction L with
  | nil => simp
  | cons d tl ih =>
    rw [List.foldr_cons, ih (fun x hx => h x (List.mem_cons_of_mem _ hx)),
      Nat.ofDigits_cons, charVal_digitChar d (h d (List.mem_cons_self _ _))]
    ring

theorem all_digits_printNat (n : ℕ) :
    (printNat n).all Char.isDigit = true := by
  rw [printNat_eq]
  by_cases h0 : n = 0
  · rw [if_pos h0]; decide
  · rw [if_neg h0]
    rw [List.all_eq_true]
    intro c hc
    obtain ⟨d, hd, rfl⟩ := List.mem_map.mp hc
    exact digitChar_isDigit d
      (Nat.digits_lt_base (by norm_num) (List.mem_reverse.mp hd))

theorem printNat_ne_nil (n : ℕ) : printNat n ≠ [] := by
  rw [printNat_eq]
  by_cases h0 : n = 0
  · rw [if_pos h0]; decide
  · rw [if_neg h0]
    intro h
    have h2 : Nat.digits 10 n = [] := by
      have := congrArg List.length h
      simpa using this
    exact h0 ((Nat.digits_eq_nil_iff_eq_zero).mp h2)

theorem parseNatChars_eq (cs : List Char) (h1 : cs ≠ [])
    (h2 : cs.all Char.isDigit = true) :
    parseNatChars cs = some (cs.foldl foldStep 0) := by
  unfold parseNatChars
  rw [if_neg h1, if_pos h2]

theorem parseNat_printNat (n : ℕ) : parseNatChars (printNat n) = some n := by
  by_cases h0 : n = 0
  · subst h0; decide
  · rw [parseNatChars_eq _ (printNat_ne_nil n) (all_digits_printNat n)]
    congr 1
    rw [printNat_eq]
    rw [if_neg h0, List.map_reverse, List.foldl_reverse, List.foldr_map]
    have := foldDigits_eq_ofDigits (Nat.digits 10 n)
      (fun d hd => Nat.digits_lt_base (by norm_num) hd)
    simpa [foldStep] using this.trans (Nat.ofDigits_digits 10 n)

theorem isDigit_ne_dash (c : Char) (h : c.isDigit = true) : c ≠ '-' := by
  intro hEq
  subst hEq
  exact absurd h (by decide)

theorem parseInt_printInt (v : ℤ) : parseIntChars (printInt v) = some v := by
  by_cases hv : v < 0
  · unfold printInt
    rw [if_pos hv]
    simp only [parseIntChars, eq_self_iff_true, if_true, parseNat_printNat,
      Option.some.injEq]
    omega
  · obtain ⟨c, cs, hcs⟩ := List.exists_cons_of_ne_nil (printNat_ne_nil v.natAbs)
    have hd : c.isDigit = true := by
      have hall := all_digits_printNat v.natAbs
      rw [hcs, List.all_cons, Bool.and_eq_true] at hall
      exact hall.1
    unfold printInt
    rw [if_neg hv, hcs]
    simp only [parseIntChars, if_neg (isDigit_ne_dash c hd), ← hcs, parseNat_printNat,
      Option.some.injEq]
    omega

/-! ### Cells and tables

A pandas cell after `pd.to_numeric(..., errors="coerce")` is either a number
or `NaN`; frequency counts are integers, so a cell is `Option ℤ` with `none`
for `NaN` (which is also the suppressed state inside the engine).  A DataFrame
is a table of cells indexed by (row position, column position); `nr`/`nc` are
its shape and positions outside the shape are not part of the table. -/

abbrev Cell := Option ℤ

structure Table where
  nr : ℕ
  nc : ℕ
  cell : ℕ → ℕ → Cell

/-- A DataFrame of strings, as produced by `astype(str)` at the end of
`SuppressionEngine.apply_suppression`. -/
structure STable where
  nr : ℕ
  nc : ℕ
  scell : ℕ → ℕ → String

/-- DataFrame equality: same shape and same cells at every in-shape position. -/
def exteqS (a b : STable) : Prop :=
  a.nr = b.nr ∧ a.nc = b.nc ∧
    ∀ i j, i < a.nr → j < a.nc → a.scell i j = b.scell i j

def exteqT (a b : Table) : Prop :=
  a.nr = b.nr ∧ a.nc = b.nc ∧
    ∀ i j, i < a.nr → j < a.nc → a.cell i j = b.cell i j

/-! ### SuppressionEngine (suppression.py) -/

/-- `self.suppression_value = "<5"`. -/
def suppression_value : String := String.mk ['<', '5']

/-- The `<5` rule of `_apply_primary_suppression` on one numeric cell:
`mask = (result < 5) & (result > 0); result[mask] = np.nan`.  A `NaN` cell
compares false on both sides and stays `NaN`. -/
def primaryCell (c : Cell) : Cell :=
  match c with
  | none => none
  | some v => if 0 < v ∧ v < 5 then none else some v

theorem primaryCell_some (v : ℤ) :
    primaryCell (some v) = if 0 < v ∧ v < 5 then none else some v := rfl

/-- `_apply_primary_suppression` after the `pd.to_numeric` coercion: the mask
is applied to every cell of the DataFrame. -/
def primaryPass (t : Table) : Table :=
  ⟨t.nr, t.nc, fun i j => primaryCell (t.cell i j)⟩

/-- `row.isna().sum()`: number of suppressed (`NaN`) cells in a line. -/
def countNone (xs : List Cell) : ℕ := (xs.filter Option.isNone).length

/-- Number of visible (non-`NaN`) cells in a line. -/
def countSome (xs : List Cell) : ℕ := (xs.filter Option.isSome).length

/-- `line.dropna()` keeping pandas positional labels: the visible cells of a
line paired with their positions, in line order, positions counted from `i`. -/
def nonSuppressedFrom : List Cell → ℕ → List (ℕ × ℤ)
  | [], _ => []
  | none :: xs, i => nonSuppressedFrom xs (i + 1)
  | some v :: xs, i => (i, v) :: nonSuppressedFrom xs (i + 1)

def nonSuppressed (xs : List Cell) : List (ℕ × ℤ) := nonSuppressedFrom xs 0

/-- Ordering used by `Series.nsmallest` (ascending by value; `keep="first"`
resolves ties by position, which the stable insertion sort provides). -/
def valLe (p q : ℕ × ℤ) : Prop := p.2 ≤ q.2

instance : DecidableRel valLe := fun p q => inferInstanceAs (Decidable (p.2 ≤ q.2))

/-- `non_suppressed.nsmallest(2).index[-1]` guarded by
`len(non_suppressed) > 1`: the position of the second-smallest visible cell. -/
def secondSmallest (xs : List Cell) : Option ℕ :=
  if 1 < (nonSuppressed xs).length then
    ((List.insertionSort valLe (nonSuppressed xs)).get? 1).map Prod.fst
  else none

/-- One line (row or column) of `_apply_complementary_suppression`: if exactly
one cell is suppressed and more than one cell is visible, also suppress the
second-smallest visible cell. -/
def linePass (xs : List Cell) : List Cell :=
  if countNone xs = 1 then
    match secondSmallest xs with
    | some k => xs.set k none
    | none => xs
  else xs

def rowOf (t : Table) (i : ℕ) : List Cell :=
  (List.range t.nc).map fun j => t.cell i j

def colOf (t : Table) (j : ℕ) : List Cell :=
  (List.range t.nr).map fun i => t.cell i j

/-- The row loop of `_apply_complementary_suppression`: each row is updated
from its own current state, and rows do not affect each other. -/
def rowSweep (t : Table) : Table :=
  ⟨t.nr, t.nc, fun i j =>
    if i < t.nr ∧ j < t.nc then ((linePass (rowOf t i)).get? j).getD (t.cell i j)
    else t.cell i j⟩

/-- The column loop of `_apply_complementary_suppression`, run after the row
loop: each column is updated from its own current state. -/
def colSweep (t : Table) : Table :=
  ⟨t.nr, t.nc, fun i j =>
    if i < t.nr ∧ j < t.nc then ((linePass (colOf t j)).get? i).getD (t.cell i j)
    else t.cell i j⟩

def apply_complementary_suppression (t : Table) : Table := colSweep (rowSweep t)

/-- The `pd.to_numeric(result[col], errors="coerce")` coercion applied to a
string DataFrame (inside `_apply_primary_suppression`). -/
def to_numeric_str (s : String) : Cell := parseIntChars s.data

def readTable (s : STable) : Table :=
  ⟨s.nr, s.nc, fun i j => to_numeric_str (s.scell i j)⟩

/-- The output formatting block of `apply_suppression`: visible numeric cells
are printed as integers, `NaN` becomes the marker via
`astype(str)` + `replace("nan", "<5")`. -/
def formatCell (c : Cell) : String :=
  match c with
  | none => suppression_value
  | some v => String.mk (printInt v)

def writeTable (t : Table) : STable :=
  ⟨t.nr, t.nc, fun i j => formatCell (t.cell i j)⟩

/-- The numeric core of `apply_suppression`: primary suppression, then the
row sweep, then the column sweep. -/
def suppressTable (t : Table) : Table :=
  apply_complementary_suppression (primaryPass t)

/-- `SuppressionEngine.apply_suppression`: coerce to numeric, apply primary
and complementary suppression, format back to strings. -/
def apply_suppression (s : STable) : STable :=
  writeTable (suppressTable (readTable s))

/-! ### Facts about one line of the complementary-suppression sweep -/

theorem countNone_cons_none (xs : List Cell) :
    countNone (none :: xs) = countNone xs + 1 := by
  simp [countNone, List.filter_cons]

theorem countNone_cons_some (v : ℤ) (xs : List Cell) :
    countNone (some v :: xs) = countNone xs := by
  simp [countNone, List.filter_cons]

theorem countSome_cons_none (xs : List Cell) :
    countSome (none :: xs) = countSome xs := by
  simp [countSome, List.filter_cons]

theorem countSome_cons_some (v : ℤ) (xs : List Cell) :
    countSome (some v :: xs) = countSome xs + 1 := by
  simp [countSome, List.filter_cons]

theorem length_linePass (xs : List Cell) : (linePass xs).length = xs.length := by
  unfold linePass
  by_cases h : countNone xs = 1
  · rw [if_pos h]
    cases secondSmallest xs <;> simp
  · rw [if_neg h]

theorem mem_nonSuppressedFrom : ∀ (xs : List Cell) (i k : ℕ) (v : ℤ),
    (k, v) ∈ nonSuppressedFrom xs i → ∃ j, k = i + j ∧ xs.get? j = some (some v) := by
  intro xs
  induction xs with
  | nil => intro i k v h; simp [nonSuppressedFrom] at h
  | cons c rest ih =>
    intro i k v h
    cases c with
    | none =>
      obtain ⟨j, hj, hget⟩ := ih (i + 1) k v h
      exact ⟨j + 1, by omega, by simpa using hget⟩
    | some w =>
      rw [nonSuppressedFrom] at h
      rcases List.mem_cons.mp h with h1 | h2
      · have hk : k = i ∧ v = w := by
          constructor
          · exact congrArg Prod.fst h1
          · exact congrArg Prod.snd h1
        exact ⟨0, by omega, by rw [hk.2]; rfl⟩
      · obtain ⟨j, hj, hget⟩ := ih (i + 1) k v h2
        exact ⟨j + 1, by omega, by simpa using hget⟩

theorem length_nonSuppressedFrom : ∀ (xs : List Cell) (i : ℕ),
    (nonSuppressedFrom xs i).length = countSome xs := by
  intro xs
  induction xs with
  | nil => intro i; rfl
  | cons c rest ih =>
    intro i
    cases c with
    | none =>
      rw [nonSuppressedFrom, ih, countSome_cons_none]
    | some w =>
      rw [nonSuppressedFrom, List.length_cons, ih, countSome_cons_some]

theorem secondSmallest_mem (xs : List Cell) (k : ℕ)
    (h : secondSmallest xs = some k) : ∃ v, xs.get? k = some (some v) := by
  unfold secondSmallest at h
  by_cases hl : 1 < (nonSuppressed xs).length
  · rw [if_pos hl] at h
    cases hg : (List.insertionSort valLe (nonSuppressed xs)).get? 1 with
    | none => rw [hg] at h; simp at h
    | some p =>
      rw [hg] at h
      simp at h
      have hp : p ∈ List.insertionSort valLe (nonSuppressed xs) := List.get?_mem hg
      have hp2 : p ∈ nonSuppressed xs :=
        (List.perm_insertionSort valLe (nonSuppressed xs)).mem_iff.mp hp
      have hp3 : (p.1, p.2) ∈ nonSuppressedFrom xs 0 := by
        simpa [nonSuppressed] using hp2
      obtain ⟨j, hj, hget⟩ := mem_nonSuppressedFrom xs 0 p.1 p.2 hp3
      refine ⟨p.2, ?_⟩
      rw [← h]
      have : p.1 = j := by omega
      rw [this]
      exact hget
  · rw [if_neg hl] at h
    exact absurd h (by simp)

theorem secondSmallest_eq_none (xs : List Cell)
    (h : secondSmallest xs = none) : countSome xs ≤ 1 := by
  unfold secondSmallest at h
  by_cases hl : 1 < (nonSuppressed xs).length
  · rw [if_pos hl] at h
    have h2 : (List.insertionSort valLe (nonSuppressed xs)).get? 1 = none := by
      cases hg : (List.insertionSort valLe (nonSuppressed xs)).get? 1 with
      | none => rfl
      | some p => rw [hg] at h; simp at h
    rw [List.get?_eq_none] at h2
    have hlen : (List.insertionSort valLe (nonSuppressed xs)).length =
        (nonSuppressed xs).length := (List.perm_insertionSort valLe _).length_eq
    omega
  · rw [← length_nonSuppressedFrom xs 0]
    simp only [nonSuppressed] at hl
    omega

theorem countNone_set_none (xs : List Cell) (k : ℕ) (v : ℤ)
    (h : xs.get? k = some (some v)) :
    countNone (xs.set k none) = countNone xs + 1 := by
  induction xs generalizing k with
  | nil => simp at h
  | cons c rest ih =>
    cases k with
    | zero =>
      have hc : c = some v := by simpa using h
      subst hc
      rw [List.set, countNone_cons_none, countNone_cons_some]
    | succ k2 =>
      have h2 : rest.get? k2 = some (some v) := by simpa using h
      have hr := ih k2 h2
      cases c with
      | none => rw [List.set, countNone_cons_none, countNone_cons_none, hr]
      | some w => rw [List.set, countNone_cons_some, countNone_cons_some, hr]

theorem linePass_eq_of_fire (xs : List Cell) (k : ℕ)
    (h1 : countNone xs = 1) (h2 : secondSmallest xs = some k) :
    linePass xs = xs.set k none := by
  unfold linePass
  rw [if_pos h1, h2]

theorem linePass_eq_self_of_none (xs : List Cell)
    (h1 : countNone xs = 1) (h2 : secondSmallest xs = none) :
    linePass xs = xs := by
  unfold linePass
  rw [if_pos h1, h2]

theorem linePass_eq_self_of_count (xs : List Cell)
    (h1 : countNone xs ≠ 1) : linePass xs = xs := by
  unfold linePass
  rw [if_neg h1]

theorem linePass_idem (xs : List Cell) : linePass (linePass xs) = linePass xs := by
  by_cases h : countNone xs = 1
  · cases hs : secondSmallest xs with
    | none =>
      rw [linePass_eq_self_of_none xs h hs, linePass_eq_self_of_none xs h hs]
    | some k =>
      obtain ⟨v, hv⟩ := secondSmallest_mem xs k hs
      rw [linePass_eq_of_fire xs k h hs]
      apply linePass_eq_self_of_count
      rw [countNone_set_none xs k v hv, h]
      omega
  · rw [linePass_eq_self_of_count xs h, linePass_eq_self_of_count xs h]

/-- If a line of the protected table still has exactly one suppressed cell,
then it had at most one visible cell (so the `len(non_suppressed) > 1` guard
prevented complementary suppression). -/
theorem linePass_invariant (xs : List Cell)
    (h : countNone (linePass xs) = 1) : countSome (linePass xs) ≤ 1 := by
  by_cases h1 : countNone xs = 1
  · cases hs : secondSmallest xs with
    | some k =>
      obtain ⟨v, hv⟩ := secondSmallest_mem xs k hs
      rw [linePass_eq_of_fire xs k h1 hs, countNone_set_none xs k v hv, h1] at h
      omega
    | none =>
      rw [linePass_eq_self_of_none xs h1 hs] at h ⊢
      exact secondSmallest_eq_none xs hs
  · rw [linePass_eq_self_of_count xs h1] at h
    exact absurd h h1

theorem linePass_singleton (c : Cell) : linePass [c] = [c] := by
  cases c with
  | none => decide
  | some v =>
    apply linePass_eq_self_of_count
    rw [countNone_cons_some]
    simp [countNone]

/-! ### Facts about the row and column sweeps -/

theorem map_range_getD {α : Type} (xs : List α) (n : ℕ) (hlen : xs.length = n)
    (d : ℕ → α) :
    (List.range n).map (fun i => (xs.get? i).getD (d i)) = xs := by
  subst hlen
  apply List.ext_get?
  intro i
  rw [List.get?_map]
  by_cases hi : i < xs.length
  · rw [List.get?_range hi]
    cases hg : xs.get? i with
    | none => rw [List.get?_eq_none] at hg; omega
    | some a =>
      have hg2 : xs[i]? = some a := by rw [← List.get?_eq_getElem?]; exact hg
      simp [hg2]
  · have h1 : (List.range xs.length).get? i = none := by
      rw [List.get?_eq_none, List.length_range]
      omega
    have h2 : xs.get? i = none := List.get?_eq_none.mpr (by omega)
    rw [h1, h2]
    rfl

theorem get?_is_some_of_lt {α : Type} (ys : List α) (i : ℕ) (hi : i < ys.length) :
    ∃ c, ys.get? i = some c := by
  cases hg : ys.get? i with
  | none => rw [List.get?_eq_none] at hg; omega
  | some c => exact ⟨c, rfl⟩

theorem length_rowOf (t : Table) (i : ℕ) : (rowOf t i).length = t.nc := by
  simp [rowOf]

theorem length_colOf (t : Table) (j : ℕ) : (colOf t j).length = t.nr := by
  simp [colOf]

theorem rowOf_get? (t : Table) (i j : ℕ) (hj : j < t.nc) :
    (rowOf t i).get? j = some (t.cell i j) := by
  unfold rowOf
  rw [List.get?_map, List.get?_range hj]
  rfl

theorem colOf_get? (t : Table) (j i : ℕ) (hi : i < t.nr) :
    (colOf t j).get? i = some (t.cell i j) := by
  unfold colOf
  rw [List.get?_map, List.get?_range hi]
  rfl

theorem rowSweep_cell (t : Table) (i j : ℕ) (hi : i < t.nr) (hj : j < t.nc) :
    (rowSweep t).cell i j = ((linePass (rowOf t i)).get? j).getD (t.cell i j) := by
  show (if i < t.nr ∧ j < t.nc then _ else _) = _
  rw [if_pos ⟨hi, hj⟩]

theorem colSweep_cell (t : Table) (i j : ℕ) (hi : i < t.nr) (hj : j < t.nc) :
    (colSweep t).cell i j = ((linePass (colOf t j)).get? i).getD (t.cell i j) := by
  show (if i < t.nr ∧ j < t.nc then _ else _) = _
  rw [if_pos ⟨hi, hj⟩]

theorem rowOf_rowSweep (t : Table) (i : ℕ) (hi : i < t.nr) :
    rowOf (rowSweep t) i = linePass (rowOf t i) := by
  have hlen : (linePass (rowOf t i)).length = t.nc := by
    rw [length_linePass, length_rowOf]
  show (List.range t.nc).map (fun j => (rowSweep t).cell i j) = linePass (rowOf t i)
  calc (List.range t.nc).map (fun j => (rowSweep t).cell i j)
      = (List.range t.nc).map
          (fun j => ((linePass (rowOf t i)).get? j).getD (t.cell i j)) := by
        apply List.map_congr_left
        intro j hj
        exact rowSweep_cell t i j hi (List.mem_range.mp hj)
    _ = linePass (rowOf t i) := map_range_getD _ _ hlen _

theorem colOf_colSweep (t : Table) (j : ℕ) (hj : j < t.nc) :
    colOf (colSweep t) j = linePass (colOf t j) := by
  have hlen : (linePass (colOf t j)).length = t.nr := by
    rw [length_linePass, length_colOf]
  show (List.range t.nr).map (fun i => (colSweep t).cell i j) = linePass (colOf t j)
  calc (List.range t.nr).map (fun i => (colSweep t).cell i j)
      = (List.range t.nr).map
          (fun i => ((linePass (colOf t j)).get? i).getD (t.cell i j)) := by
        apply List.map_congr_left
        intro i hi
        exact colSweep_cell t i j (List.mem_range.mp hi) hj
    _ = linePass (colOf t j) := map_range_getD _ _ hlen _

theorem colSweep_colSweep_cell (t : Table) (i j : ℕ) (hi : i < t.nr) (hj : j < t.nc) :
    (colSweep (colSweep t)).cell i j = (colSweep t).cell i j := by
  have hlen : (linePass (colOf t j)).length = t.nr := by
    rw [length_linePass, length_colOf]
  obtain ⟨c, hc⟩ := get?_is_some_of_lt (linePass (colOf t j)) i (by rw [hlen]; exact hi)
  have e1 : (colSweep (colSweep t)).cell i j =
      ((linePass (colOf (colSweep t) j)).get? i).getD ((colSweep t).cell i j) :=
    colSweep_cell (colSweep t) i j hi hj
  have e2 : (colSweep t).cell i j = c := by
    rw [colSweep_cell t i j hi hj, hc]
    rfl
  rw [e1, colOf_colSweep t j hj, linePass_idem, hc, e2]
  rfl

theorem linePass_get? (xs : List Cell) (j : ℕ) (c : Cell)
    (h : (linePass xs).get? j = some c) : c = none ∨ xs.get? j = some c := by
  unfold linePass at h
  by_cases h1 : countNone xs = 1
  · rw [if_pos h1] at h
    cases hs : secondSmallest xs with
    | none => rw [hs] at h; right; exact h
    | some k =>
      rw [hs] at h
      by_cases hk : k = j
      · subst hk
        rw [List.get?_set_eq] at h
        cases hg : xs.get? k with
        | none => rw [hg] at h; simp at h
        | some a =>
          rw [hg] at h
          left
          have h2 : some (none : Cell) = some c := h
          exact (Option.some.inj h2).symm
      · rw [List.get?_set_ne _ xs hk] at h
        right
        exact h
  · rw [if_neg h1] at h
    right
    exact h

/-! ### Cells already processed by primary suppression stay fixed by it -/

def cleanTable (t : Table) : Prop :=
  ∀ i j, i < t.nr → j < t.nc → primaryCell (t.cell i j) = t.cell i j

theorem primaryCell_idem (c : Cell) :
    primaryCell (primaryCell c) = primaryCell c := by
  cases c with
  | none => rfl
  | some v =>
    by_cases h : 0 < v ∧ v < 5
    · have e : primaryCell (some v) = none := by rw [primaryCell_some, if_pos h]
      rw [e]
      rfl
    · have e : primaryCell (some v) = some v := by rw [primaryCell_some, if_neg h]
      rw [e]
      exact e

theorem cleanTable_primaryPass (t : Table) : cleanTable (primaryPass t) := by
  intro i j _ _
  exact primaryCell_idem (t.cell i j)

theorem cleanTable_rowSweep (t : Table) (h : cleanTable t) :
    cleanTable (rowSweep t) := by
  intro i j hi hj
  rw [rowSweep_cell t i j hi hj]
  have hlen : (linePass (rowOf t i)).length = t.nc := by
    rw [length_linePass, length_rowOf]
  obtain ⟨c, hc⟩ := get?_is_some_of_lt (linePass (rowOf t i)) j (by rw [hlen]; exact hj)
  rw [hc]
  rcases linePass_get? (rowOf t i) j c hc with rfl | h2
  · rfl
  · rw [rowOf_get? t i j hj] at h2
    show primaryCell c = c
    rw [← Option.some.inj h2]
    exact h i j hi hj

theorem cleanTable_colSweep (t : Table) (h : cleanTable t) :
    cleanTable (colSweep t) := by
  intro i j hi hj
  rw [colSweep_cell t i j hi hj]
  have hlen : (linePass (colOf t j)).length = t.nr := by
    rw [length_linePass, length_colOf]
  obtain ⟨c, hc⟩ := get?_is_some_of_lt (linePass (colOf t j)) i (by rw [hlen]; exact hi)
  rw [hc]
  rcases linePass_get? (colOf t j) i c hc with rfl | h2
  · rfl
  · rw [colOf_get? t j i hi] at h2
    show primaryCell c = c
    rw [← Option.some.inj h2]
    exact h i j hi hj

/-! ### Congruence of the pipeline with respect to in-shape table equality -/

theorem exteqT_trans (a b c : Table) (h1 : exteqT a b) (h2 : exteqT b c) :
    exteqT a c := by
  obtain ⟨n1, c1, e1⟩ := h1
  obtain ⟨n2, c2, e2⟩ := h2
  exact ⟨n1.trans n2, c1.trans c2,
    fun i j hi hj => (e1 i j hi hj).trans (e2 i j (n1 ▸ hi) (c1 ▸ hj))⟩

theorem rowOf_congr (a b : Table) (h : exteqT a b) (i : ℕ) (hi : i < a.nr) :
    rowOf a i = rowOf b i := by
  obtain ⟨hnr, hnc, hc⟩ := h
  unfold rowOf
  rw [← hnc]
  apply List.map_congr_left
  intro j hj
  exact hc i j hi (List.mem_range.mp hj)

theorem colOf_congr (a b : Table) (h : exteqT a b) (j : ℕ) (hj : j < a.nc) :
    colOf a j = colOf b j := by
  obtain ⟨hnr, hnc, hc⟩ := h
  unfold colOf
  rw [← hnr]
  apply List.map_congr_left
  intro i hi
  exact hc i j (List.mem_range.mp hi) hj

theorem exteqT_primaryPass (a b : Table) (h : exteqT a b) :
    exteqT (primaryPass a) (primaryPass b) := by
  obtain ⟨hnr, hnc, hc⟩ := h
  refine ⟨hnr, hnc, fun i j hi hj => ?_⟩
  show primaryCell (a.cell i j) = primaryCell (b.cell i j)
  rw [hc i j hi hj]

theorem exteqT_rowSweep (a b : Table) (h : exteqT a b) :
    exteqT (rowSweep a) (rowSweep b) := by
  obtain ⟨hnr, hnc, hc⟩ := h
  refine ⟨hnr, hnc, fun i j hi hj => ?_⟩
  rw [rowSweep_cell a i j hi hj, rowSweep_cell b i j (hnr ▸ hi) (hnc ▸ hj),
    ← rowOf_congr a b ⟨hnr, hnc, hc⟩ i hi, ← hc i j hi hj]

theorem exteqT_colSweep (a b : Table) (h : exteqT a b) :
    exteqT (colSweep a) (colSweep b) := by
  obtain ⟨hnr, hnc, hc⟩ := h
  refine ⟨hnr, hnc, fun i j hi hj => ?_⟩
  rw [colSweep_cell a i j hi hj, colSweep_cell b i j (hnr ▸ hi) (hnc ▸ hj),
    ← colOf_congr a b ⟨hnr, hnc, hc⟩ j hj, ← hc i j hi hj]

theorem exteqS_writeTable (a b : Table) (h : exteqT a b) :
    exteqS (writeTable a) (writeTable b) := by
  obtain ⟨hnr, hnc, hc⟩ := h
  refine ⟨hnr, hnc, fun i j hi hj => ?_⟩
  show formatCell (a.cell i j) = formatCell (b.cell i j)
  rw [hc i j hi hj]

/-- `pd.to_numeric` undoes the output formatting of `apply_suppression`. -/
theorem roundTripCell (c : Cell) : to_numeric_str (formatCell c) = c := by
  cases c with
  | none => decide
  | some v =>
    show parseIntChars (String.mk (printInt v)).data = some v
    exact parseInt_printInt v

theorem exteqT_readTable_writeTable (t : Table) :
    exteqT (readTable (writeTable t)) t :=
  ⟨rfl, rfl, fun i j _ _ => roundTripCell (t.cell i j)⟩

theorem exteqT_of_clean (t : Table) (h : cleanTable t) :
    exteqT (primaryPass t) t :=
  ⟨rfl, rfl, fun i j hi hj => h i j hi hj⟩

/-- On a one-column table every row is a singleton, so the row sweep of the
complementary pass does nothing. -/
theorem rowSweep_nc1 (t : Table) (h : t.nc = 1) : exteqT (rowSweep t) t := by
  refine ⟨rfl, rfl, fun i j hi hj => ?_⟩
  have hj0 : j = 0 := by
    have : j < t.nc := hj
    omega
  subst hj0
  rw [rowSweep_cell t i 0 hi hj]
  have e : rowOf t i = [t.cell i 0] := by
    unfold rowOf
    rw [h]
    rfl
  rw [e, linePass_singleton]
  rfl

theorem exteqT_colSweep_colSweep (t : Table) :
    exteqT (colSweep (colSweep t)) (colSweep t) :=
  ⟨rfl, rfl, fun i j hi hj => colSweep_colSweep_cell t i j hi hj⟩

/-! ### Concrete tables used as witnesses and counterexamples -/

/-- A 3 by 3 count table: rows `[3,100,50]`, `[6,10,8]`, `[9,7,11]`. -/
def tc3 : Table :=
  ⟨3, 3, fun i j =>
    some ((([[3, 100, 50], [6, 10, 8], [9, 7, 11]] : List (List ℤ)).getD i []).getD j 0)⟩

/-- The same table rendered as strings (a frequency table as
`apply_suppression` receives it). -/
def sc4 : STable := writeTable tc3

/-- A 2 by 1 count table with counts `3` and `7`. -/
def t2x1 : Table := ⟨2, 1, fun i _ => if i = 0 then some 3 else some 7⟩

/-- A 2 by 1 one-column frequency table of strings (one-way shape). -/
def s2x1 : STable :=
  ⟨2, 1, fun i _ => if i = 0 then String.mk ['3'] else String.mk ['7']⟩

/-- Claim C3 (amended): after `apply_suppression` no column of the protected
table has exactly one suppressed cell, unless that column has at most one
visible cell (so the `len(non_suppressed) > 1` guard blocked complementary
suppression).  The original claim, which asserted this also for rows and
excepted only lines with fewer than two cells, is refuted by
`c3_counterexample`: the column sweep can suppress a cell in a row that the
row sweep has already passed, leaving that row with exactly one suppressed
cell. -/
theorem c3_suppression_column_invariant (t : Table) (j : ℕ) (hj : j < t.nc)
    (h : countNone (colOf (suppressTable t) j) = 1) :
    countSome (colOf (suppressTable t) j) ≤ 1 := by
  have e : colOf (suppressTable t) j =
      linePass (colOf (rowSweep (primaryPass t)) j) :=
    colOf_colSweep (rowSweep (primaryPass t)) j hj
  rw [e] at h ⊢
  exact linePass_invariant _ h

/-- Claim C3, counterexample to the claim as stated: in the protected table of
`tc3` (primary suppression hits only the count 3; the row sweep then
suppresses 100 in row 0; the column sweep suppresses 9 in column 0 and 10 in
column 1), row 1 ends with exactly one suppressed cell although it has three
cells. -/
theorem c3_counterexample :
    countNone (rowOf (suppressTable tc3) 1) = 1 ∧
      2 ≤ (rowOf (suppressTable tc3) 1).length := by
  decide

theorem c3_witness :
    0 < t2x1.nc ∧ countNone (colOf (suppressTable t2x1) 0) = 1 ∧
      countSome (colOf (suppressTable t2x1) 0) ≤ 1 :=
  ⟨by decide, by decide, c3_suppression_column_invariant t2x1 0 (by decide) (by decide)⟩

/-- Claim C4 (amended): `apply_suppression` is idempotent on one-column
frequency tables (the one-way table shape that
`create_frequency_table` passes to it).  On two-way tables idempotence fails
(`c4_counterexample`): the column sweep can recreate a row with exactly one
suppressed cell, and a second application then suppresses further cells. -/
theorem c4_suppression_idempotent_one_column (s : STable) (h1 : s.nc = 1) :
    exteqS (apply_suppression (apply_suppression s)) (apply_suppression s) := by
  have hclean : cleanTable (suppressTable (readTable s)) :=
    cleanTable_colSweep _ (cleanTable_rowSweep _ (cleanTable_primaryPass _))
  have s1 : exteqT (readTable (apply_suppression s)) (suppressTable (readTable s)) :=
    exteqT_readTable_writeTable _
  have s2 : exteqT (primaryPass (readTable (apply_suppression s)))
      (suppressTable (readTable s)) :=
    exteqT_trans _ _ _ (exteqT_primaryPass _ _ s1) (exteqT_of_clean _ hclean)
  have hnc : (primaryPass (readTable (apply_suppression s))).nc = 1 := h1
  have s3 : exteqT (rowSweep (primaryPass (readTable (apply_suppression s))))
      (suppressTable (readTable s)) :=
    exteqT_trans _ _ _ (rowSweep_nc1 _ hnc) s2
  have s4 : exteqT
      (colSweep (rowSweep (primaryPass (readTable (apply_suppression s)))))
      (suppressTable (readTable s)) := by
    have c1 : exteqT
        (colSweep (rowSweep (primaryPass (readTable (apply_suppression s)))))
        (colSweep (suppressTable (readTable s))) := exteqT_colSweep _ _ s3
    have c2 : exteqT (colSweep (suppressTable (readTable s)))
        (suppressTable (readTable s)) :=
      exteqT_colSweep_colSweep (rowSweep (primaryPass (readTable s)))
    exact exteqT_trans _ _ _ c1 c2
  exact exteqS_writeTable _ _ s4

/-- Claim C4, counterexample to idempotence on a two-way table: protecting
`sc4` once leaves cell (1,2) visible as `8`, protecting it twice suppresses
that cell. -/
theorem c4_counterexample :
    (apply_suppression (apply_suppression sc4)).scell 1 2 ≠
      (apply_suppression sc4).scell 1 2 := by
  decide

theorem c4_witness :
    s2x1.nc = 1 ∧
      exteqS (apply_suppression (apply_suppression s2x1)) (apply_suppression s2x1) :=
  ⟨rfl, c4_suppression_idempotent_one_column s2x1 rfl⟩

/-- Claim C5: primary suppression marks a count cell suppressed exactly when
`0 < c < 5`; a suppressed cell renders as the marker, any other count
(including `0`) renders as its decimal integer string.  This applies to every
cell of the table uniformly, margins included. -/
theorem c5_primary_suppression (t : Table) (i j : ℕ) (c : ℤ)
    (h : t.cell i j = some c) :
    ((primaryPass t).cell i j = none ↔ 0 < c ∧ c < 5) ∧
      formatCell ((primaryPass t).cell i j) =
        if 0 < c ∧ c < 5 then suppression_value else String.mk (printInt c) := by
  have e : (primaryPass t).cell i j = primaryCell (some c) := by
    show primaryCell (t.cell i j) = _
    rw [h]
  rw [e, primaryCell_some]
  by_cases hc : 0 < c ∧ c < 5
  · rw [if_pos hc, if_pos hc]
    exact ⟨⟨fun _ => hc, fun _ => rfl⟩, rfl⟩
  · rw [if_neg hc, if_neg hc]
    refine ⟨⟨fun hh => absurd hh (Option.some_ne_none c), fun hh => absurd hh hc⟩, rfl⟩

theorem c5_witness :
    tc3.cell 0 0 = some 3 ∧ String.mk (printInt 0) = String.mk ['0'] ∧
      (((primaryPass tc3).cell 0 0 = none ↔ 0 < (3:ℤ) ∧ (3:ℤ) < 5) ∧
        formatCell ((primaryPass tc3).cell 0 0) =
          if 0 < (3:ℤ) ∧ (3:ℤ) < 5 then suppression_value else String.mk (printInt 3)) :=
  ⟨by decide, by decide, c5_primary_suppression tc3 0 0 3 (by decide)⟩

/-! ### DifferentialPrivacyEngine (differential_privacy.py)

Python floats are modelled by `ℚ`; the constants `0.1, 0.3, 0.5, 0.7, 0.8,
2.0` are exact decimals, and the inputs relevant to the claims stay far from
any knife-edge comparison, so the rational model agrees with the float code. -/

/-- `DifferentialPrivacyEngine.__init__` default `base_epsilon = 1.0`. -/
def base_epsilon : ℚ := 1

/-- `proportion = subset_size / total_size if total_size > 0 else 1.0`. -/
def proportionOf (subset_size total_size : ℕ) : ℚ :=
  if 0 < total_size then (subset_size : ℚ) / (total_size : ℚ) else 1

/-- `_calculate_dynamic_epsilon`: step function of the proportion, then
`max(0.1, min(adjusted_epsilon, 2.0))`. -/
def calculate_dynamic_epsilon (subset_size total_size : ℕ) : ℚ :=
  max (1/10) (min
    (if proportionOf subset_size total_size ≤ 1/10 then base_epsilon * (3/10)
     else if proportionOf subset_size total_size ≤ 3/10 then base_epsilon * (1/2)
     else if proportionOf subset_size total_size ≤ 7/10 then base_epsilon * (4/5)
     else base_epsilon) 2)

/-- `np.round`: round half to even. -/
def roundHalfEven (x : ℚ) : ℤ :=
  if x - ⌊x⌋ < 1/2 then ⌊x⌋
  else if 1/2 < x - ⌊x⌋ then ⌊x⌋ + 1
  else if ⌊x⌋ % 2 = 0 then ⌊x⌋ else ⌊x⌋ + 1

/-- One numeric cell of `apply_differential_privacy` under a given noise
sample: `noisy = count + noise; noisy = np.maximum(noisy, 0);
noisy = np.round(noisy).astype(int)`. -/
def dp_noisy_cell (c : ℚ) (noise : ℚ) : ℤ := roundHalfEven (max (c + noise) 0)

/-- `apply_differential_privacy` on a table of true counts, with one
independent noise sample per cell (the `noise` argument is the realization of
all the Laplace draws). -/
def apply_differential_privacy (count : ℕ → ℕ → ℕ) (noise : ℕ → ℕ → ℚ)
    (i j : ℕ) : ℤ :=
  dp_noisy_cell (count i j) (noise i j)

/-- `DifferentialPrivacyEngine.create_frequency_table` computes
`total_size = len(df)` from the DataFrame it is handed and defaults
`subset_size` to that same length. -/
def create_frequency_table_epsilon (df_len : ℕ) (subset_size : Option ℕ) : ℚ :=
  calculate_dynamic_epsilon (subset_size.getD df_len) df_len

/-- The differential-privacy branch of `QueryEngine.execute_query` calls
`create_frequency_table(filtered_df, var1, var2, subset_size=len(filtered_df))`,
so both sizes seen by the epsilon calculation are the filtered length. -/
def execute_query_dp_epsilon (filtered_len : ℕ) : ℚ :=
  create_frequency_table_epsilon filtered_len (some filtered_len)

/-- The calibration the claim (and the engine docstring) prescribe: epsilon
from the filtered-subset size and the full unfiltered dataset size. -/
def claimed_epsilon (subset_size total_size : ℕ) : ℚ :=
  calculate_dynamic_epsilon subset_size total_size

theorem roundHalfEven_nonneg (x : ℚ) (h : 0 ≤ x) : 0 ≤ roundHalfEven x := by
  have hf : (0:ℤ) ≤ ⌊x⌋ := Int.le_floor.mpr (by exact_mod_cast h)
  unfold roundHalfEven
  split_ifs <;> omega

/-- Claim C8: for every input frequency table and every realization of the
Laplace noise, every protected numeric cell is non-negative, and it is an
integer (the value is the rounding `roundHalfEven` of the clamped noisy count,
stored by `astype(int)` as the integer it equals). -/
theorem c8_dp_nonneg_integer (count : ℕ → ℕ → ℕ) (noise : ℕ → ℕ → ℚ)
    (i j : ℕ) :
    0 ≤ apply_differential_privacy count noise i j ∧
      ∃ z : ℤ, ((apply_differential_privacy count noise i j : ℚ)) = (z : ℚ) :=
  ⟨roundHalfEven_nonneg _ (le_max_right _ _), _, rfl⟩

/-- Claim C1 (code bug): for a 100-row dataset whose filter leaves 10 rows,
the pipeline computes epsilon `1.0` — `execute_query` passes `filtered_df`
down, `create_frequency_table` takes `total_size = len(filtered_df)`, so
`proportion = 1.0` for every non-empty query — while the claimed calibration
from subset size 10 and total size 100 yields `0.3`. -/
theorem c1_epsilon_miscalibrated :
    execute_query_dp_epsilon 10 = 1 ∧ claimed_epsilon 10 100 = 3/10 ∧
      execute_query_dp_epsilon 10 ≠ claimed_epsilon 10 100 := by
  refine ⟨?_, ?_, ?_⟩ <;>
    norm_num [execute_query_dp_epsilon, create_frequency_table_epsilon,
      claimed_epsilon, calculate_dynamic_epsilon, proportionOf, base_epsilon]

/-! ### Command transformer (parser.py)

`ConditionNode` values are Python dicts
`{"variable": v, "operator": op, "value": lit}` and
`{"operator": op, "left": l, "right": r}`; they are modelled as a tagged
union.  Literal values are strings, ints or floats. -/

inductive Lit where
  | str : String → Lit
  | int : ℤ → Lit
  | float : ℚ → Lit
deriving DecidableEq

inductive Cond where
  | comp : String → String → Lit → Cond
  | binop : String → Cond → Cond → Cond
deriving DecidableEq

/-- `TabCommandTransformer.or_expr`: with the LALR grammar
`or_expr: and_expr ("|" and_expr)*` the transformer receives all chained
children at once, returns the sole child when there is one, and otherwise
builds a node from `args[0]` and `args[1]` only. -/
def or_expr_transform : List Cond → Option Cond
  | [a] => some a
  | a :: b :: _ => some (Cond.binop "|" a b)
  | [] => none

/-- `TabCommandTransformer.and_expr`, same shape as `or_expr`. -/
def and_expr_transform : List Cond → Option Cond
  | [a] => some a
  | a :: b :: _ => some (Cond.binop "&" a b)
  | [] => none

/-- The comparisons occurring in a condition tree. -/
def condLeaves : Cond → List Cond
  | Cond.comp v op l => [Cond.comp v op l]
  | Cond.binop _ l r => condLeaves l ++ condLeaves r

def compA : Cond := Cond.comp "a" "==" (Lit.int 1)

def compB : Cond := Cond.comp "b" "==" (Lit.int 2)

def compC : Cond := Cond.comp "c" "==" (Lit.int 3)

/-- Claim C2 (code bug): for a chain of three comparisons the transformer
returns a binary node over the first two and silently drops the third, so the
returned tree does not contain every comparison of the chain. -/
theorem c2_chain_drops_third_comparison :
    and_expr_transform [compA, compB, compC] = some (Cond.binop "&" compA compB) ∧
      or_expr_transform [compA, compB, compC] = some (Cond.binop "|" compA compB) ∧
      compC ∉ condLeaves (Cond.binop "&" compA compB) ∧
      compC ∉ condLeaves (Cond.binop "|" compA compB) := by
  decide

/-! ### Variable validation (parser.py StataParser.validate_variables) -/

/-- The dict returned by `TabCommandTransformer.tab_command`. -/
structure Parsed where
  variable1 : Option String
  variable2 : Option String
  condition : Option Cond

def condVariables : Cond → List String
  | Cond.comp v _ _ => [v]
  | Cond.binop _ l r => condVariables l ++ condVariables r

/-- `_extract_variables_from_condition` ends in `list(set(variables))`; the
model deduplicates (Python's set order is arbitrary, and nothing in the
claims depends on which duplicate survives, only on membership). -/
def extract_variables_from_condition (c : Cond) : List String :=
  (condVariables c).dedup

/-- The `variables` list assembled by `validate_variables`: `variable1`, then
`variable2`, then the condition's variables. -/
def collectVariables (p : Parsed) : List String :=
  p.variable1.toList ++ p.variable2.toList ++
    (match p.condition with
     | some c => extract_variables_from_condition c
     | none => [])

def squote : String := String.mk [Char.ofNat 39]

/-- The message of the `ValueError` raised by `validate_variables`. -/
def unknown_variable_message (v : String) : String :=
  "Variable " ++ squote ++ v ++ squote ++ " not found in dataset"

/-- `validate_variables`: raise on the first variable that is not an
available column. -/
def validate_variables (p : Parsed) (cols : List String) : Except String Unit :=
  match (collectVariables p).find? (fun v => !(cols.contains v)) with
  | some v => Except.error (unknown_variable_message v)
  | none => Except.ok ()

/-! Substring occurrence, to state what an error message does and does not
contain. -/

def leadsWith : List Char → List Char → Bool
  | [], _ => true
  | _ :: _, [] => false
  | a :: as, b :: bs => a == b && leadsWith as bs

def hasSubAux (pat : List Char) : List Char → Bool
  | [] => pat.isEmpty
  | c :: rest => leadsWith pat (c :: rest) || hasSubAux pat rest

/-- `hasSub s pat`: `pat` occurs contiguously inside `s`. -/
def hasSub (s pat : String) : Bool := hasSubAux pat.data s.data

theorem leadsWith_refl_append : ∀ (as bs : List Char),
    leadsWith as (as ++ bs) = true := by
  intro as
  induction as with
  | nil => intro bs; rfl
  | cons a rest ih =>
    intro bs
    show (a == a && leadsWith rest (rest ++ bs)) = true
    rw [ih bs, beq_self_eq_true]
    rfl

theorem hasSubAux_of_leadsWith (pat s : List Char)
    (h : leadsWith pat s = true) : hasSubAux pat s = true := by
  cases s with
  | nil =>
    cases pat with
    | nil => rfl
    | cons a as => exact absurd h (by simp [leadsWith])
  | cons c rest =>
    show (leadsWith pat (c :: rest) || hasSubAux pat rest) = true
    rw [h]
    rfl

theorem hasSubAux_append_left : ∀ (xs s pat : List Char),
    hasSubAux pat s = true → hasSubAux pat (xs ++ s) = true := by
  intro xs
  induction xs with
  | nil => intro s pat h; exact h
  | cons x xs2 ih =>
    intro s pat h
    show (leadsWith pat (x :: (xs2 ++ s)) || hasSubAux pat (xs2 ++ s)) = true
    rw [ih s pat h, Bool.or_true]

theorem data_append (a b : String) : (a ++ b).data = a.data ++ b.data := by
  cases a
  cases b
  rfl

/-! ### QueryEngine.execute_query (query_engine.py)

The Lark parse of the command text is outside the embedding; `execute_query`
is modelled from the point where the parsed dict is in hand (line 37 of
query_engine.py), which is what every claim about it concerns.  The two
engines are parameters so that theorems can state that a result is the same
for every engine (the engine was not consulted). -/

/-- A pandas cell of the input dataset: a string or a number. -/
inductive PValue where
  | str : String → PValue
  | num : ℚ → PValue
deriving DecidableEq

structure QEDataset where
  cols : List String
  rows : List (List PValue)

def litToPValue : Lit → PValue
  | Lit.str s => PValue.str s
  | Lit.int v => PValue.num v
  | Lit.float q => PValue.num q

/-- pandas ordering on same-typed values; values of different types never
compare less-than (a numeric literal never matches a string column). -/
def pvalueLt (a b : PValue) : Bool :=
  match a, b with
  | PValue.num x, PValue.num y => decide (x < y)
  | PValue.str x, PValue.str y => decide (x < y)
  | _, _ => false

def comparison_ops : List String := ["==", "!=", "<", ">", "<=", ">="]

/-- The comparison dispatch of `_apply_filter_mask` (same order as the
source's if chain). -/
def compareOp (op : String) (a b : PValue) : Bool :=
  if op = "==" then a == b
  else if op = "!=" then !(a == b)
  else if op = "<" then pvalueLt a b
  else if op = ">" then pvalueLt b a
  else if op = "<=" then a == b || pvalueLt a b
  else if op = ">=" then a == b || pvalueLt b a
  else false

/-- `_apply_filter_mask` for one row: both children of a binary node are
evaluated (no short-circuit), unknown columns and unsupported operators
raise. -/
def evalCond (cols : List String) (row : List PValue) : Cond → Except String Bool
  | Cond.comp v op lit =>
    match (cols.findIdx? (fun c2 => c2 == v)).bind (fun k => row.get? k) with
    | none => Except.error ("Unknown column: " ++ v)
    | some pv =>
      if op ∈ comparison_ops then Except.ok (compareOp op pv (litToPValue lit))
      else Except.error ("Unsupported comparison operator: " ++ op)
  | Cond.binop op l r =>
    match evalCond cols row l, evalCond cols row r with
    | Except.ok a, Except.ok b =>
      if op = "&" then Except.ok (a && b)
      else if op = "|" then Except.ok (a || b)
      else Except.error ("Unsupported operator: " ++ op)
    | Except.error e, _ => Except.error e
    | _, Except.error e => Except.error e

/-- `_apply_filter`: the boolean mask selects the surviving rows. -/
def filterRows (cols : List String) (rows : List (List PValue)) (c : Cond) :
    Except String (List (List PValue)) :=
  match rows.mapM (fun r => evalCond cols r c) with
  | Except.error e => Except.error e
  | Except.ok mask =>
    Except.ok ((rows.zip mask).filterMap (fun p => if p.2 then some p.1 else none))

/-- The three result shapes of `execute_query`: the empty-match dict, the
table dict `{columns, data, row_count, command}`, and a raised
`ValueError`. -/
inductive QueryResult where
  | emptyRes : List String → List (List String) → String → QueryResult
  | table : List String → List (List String) → ℕ → String → QueryResult
  | failure : String → QueryResult
deriving DecidableEq

deriving instance DecidableEq for Except

def no_data_message : String := "No data matches the specified conditions"

/-- The wrapper of the outer `except` block of `execute_query`. -/
def qfail (m : String) : String := "Query execution failed: " ++ m

abbrev SuppEngineT :=
  List String → List (List PValue) → String → Option String →
    List String × List (List String)

abbrev DPEngineT :=
  List String → List (List PValue) → String → Option String → ℕ →
    List String × List (List String)

/-- `QueryEngine.execute_query` after parsing: validate the variables, filter,
short-circuit on an empty filtered set, then branch on the privacy mode
(anything other than `"differential_privacy"` defaults to suppression). -/
def execute_query (suppEngine : SuppEngineT) (dpEngine : DPEngineT)
    (ds : QEDataset) (p : Parsed) (command : String) (privacy_mode : String) :
    QueryResult :=
  match validate_variables p ds.cols with
  | Except.error m => QueryResult.failure (qfail m)
  | Except.ok _ =>
    match (match p.condition with
           | some c => filterRows ds.cols ds.rows c
           | none => Except.ok ds.rows) with
    | Except.error m => QueryResult.failure (qfail m)
    | Except.ok filtered =>
      if filtered.isEmpty then
        QueryResult.emptyRes [] [] no_data_message
      else
        match p.variable1 with
        | none => QueryResult.failure (qfail "First variable is None - parser error")
        | some v1 =>
          if privacy_mode = "differential_privacy" then
            QueryResult.table (dpEngine ds.cols filtered v1 p.variable2 filtered.length).1
              (dpEngine ds.cols filtered v1 p.variable2 filtered.length).2
              filtered.length command
          else
            QueryResult.table (suppEngine ds.cols filtered v1 p.variable2).1
              (suppEngine ds.cols filtered v1 p.variable2).2
              filtered.length command

/-- `routes.py` `QueryResource.post`: the privacy mode accepted before the
core is invoked (`if privacy_mode not in [...]: abort(400, ...)`). -/
def api_privacy_mode_valid (m : String) : Bool :=
  m == "suppression" || m == "differential_privacy"

/-! ### Concrete query inputs for witnesses and counterexamples -/

def dsW : QEDataset :=
  ⟨["sex", "region"], [[PValue.str "M", PValue.str "Urban"]]⟩

/-- Parse of `tab sex if region == "Mars"`. -/
def pW : Parsed :=
  ⟨some "sex", none, some (Cond.comp "region" "==" (Lit.str "Mars"))⟩

/-- Parse of `tab age`. -/
def pAge : Parsed := ⟨some "age", none, none⟩

def trivSupp : SuppEngineT := fun _ _ _ _ => ([], [])

def trivDP : DPEngineT := fun _ _ _ _ _ => ([], [])

/-- Claim C6 (amended): when a named variable is absent from the columns,
`execute_query` fails before any filtering or aggregation — the failure is
the same for every engine, privacy mode and dataset rows — and the error
message contains the offending variable name.  But the message does not
contain the dataset's column list (refuted concretely by
`c6_counterexample`): `validate_variables` raises
`Variable <v> not found in dataset`, and the messages of `execute_query`
that do list the available columns sit behind that validation, unreachable
for this error. -/
theorem c6_unknown_variable_error (p : Parsed) (ds : QEDataset) (m : String)
    (h : validate_variables p ds.cols = Except.error m) :
    (∃ v, v ∈ collectVariables p ∧ ds.cols.contains v = false ∧
        m = unknown_variable_message v ∧ hasSub m v = true) ∧
      ∀ (e1 : SuppEngineT) (e2 : DPEngineT) (cmd mode : String),
        execute_query e1 e2 ds p cmd mode = QueryResult.failure (qfail m) := by
  constructor
  · unfold validate_variables at h
    cases hf : (collectVariables p).find? (fun v => !(ds.cols.contains v)) with
    | none => rw [hf] at h; exact absurd h (by simp)
    | some v =>
      rw [hf] at h
      have hmem : v ∈ collectVariables p := List.mem_of_find?_eq_some hf
      have hprop := List.find?_some hf
      have hm : m = unknown_variable_message v := (Except.error.inj h).symm
      refine ⟨v, hmem, by simpa using hprop, hm, ?_⟩
      rw [hm]
      show hasSubAux v.data (unknown_variable_message v).data = true
      have e : (unknown_variable_message v).data =
          (("Variable " ++ squote).data) ++
            (v.data ++ (squote ++ " not found in dataset").data) := by
        simp [unknown_variable_message, data_append, List.append_assoc]
      rw [e]
      apply hasSubAux_append_left
      rw [data_append]
      exact hasSubAux_of_leadsWith _ _ (leadsWith_refl_append v.data _)
  · intro e1 e2 cmd mode
    unfold execute_query
    rw [h]

/-- Claim C6, counterexample to the claim as stated: the error for `tab age`
against columns `sex`, `region` names `age` but contains neither actual
column name, so the message does not include the dataset's column list. -/
theorem c6_counterexample :
    validate_variables pAge ["sex", "region"] =
        Except.error (unknown_variable_message "age") ∧
      hasSub (unknown_variable_message "age") "age" = true ∧
      hasSub (unknown_variable_message "age") "sex" = false ∧
      hasSub (unknown_variable_message "age") "region" = false := by
  decide

theorem c6_witness :
    (∃ v, v ∈ collectVariables pAge ∧ dsW.cols.contains v = false ∧
        unknown_variable_message "age" = unknown_variable_message v ∧
        hasSub (unknown_variable_message "age") v = true) ∧
      ∀ (e1 : SuppEngineT) (e2 : DPEngineT) (cmd mode : String),
        execute_query e1 e2 dsW pAge cmd mode =
          QueryResult.failure (qfail (unknown_variable_message "age")) :=
  c6_unknown_variable_error pAge dsW (unknown_variable_message "age") (by decide)

/-- Claim C7: a filter that leaves zero rows short-circuits the query to the
exact empty-match value `{columns: [], data: [], message: "No data matches
the specified conditions"}`; the result is the same for every suppression or
differential-privacy engine (neither is consulted) and every privacy mode. -/
theorem c7_empty_filter_short_circuit (e1 : SuppEngineT) (e2 : DPEngineT)
    (ds : QEDataset) (p : Parsed) (cmd mode : String) (c : Cond)
    (hv : validate_variables p ds.cols = Except.ok ())
    (hc : p.condition = some c)
    (hf : filterRows ds.cols ds.rows c = Except.ok []) :
    execute_query e1 e2 ds p cmd mode =
      QueryResult.emptyRes [] [] no_data_message := by
  unfold execute_query
  rw [hv]
  rw [show (match p.condition with
            | some c2 => filterRows ds.cols ds.rows c2
            | none => Except.ok ds.rows) = Except.ok ([] : List (List PValue)) from by
    rw [hc]; exact hf]
  rfl

theorem c7_witness :
    validate_variables pW dsW.cols = Except.ok () ∧
      filterRows dsW.cols dsW.rows (Cond.comp "region" "==" (Lit.str "Mars")) =
        Except.ok [] ∧
      execute_query trivSupp trivDP dsW pW "tab sex if region eq Mars"
          "suppression" = QueryResult.emptyRes [] [] no_data_message :=
  ⟨by decide, by decide,
    c7_empty_filter_short_circuit trivSupp trivDP dsW pW
      "tab sex if region eq Mars" "suppression"
      (Cond.comp "region" "==" (Lit.str "Mars")) (by decide) rfl (by decide)⟩

/-- Claim C9: the core treats every privacy-mode string other than exactly
`"differential_privacy"` as suppression — the result equals the
`"suppression"`-mode result and no mode is ever rejected by the core — while
the HTTP layer's validation accepts exactly the two known strings, so any
other value is rejected before the core runs. -/
theorem c9_default_to_suppression (e1 : SuppEngineT) (e2 : DPEngineT)
    (ds : QEDataset) (p : Parsed) (cmd mode : String)
    (h : mode ≠ "differential_privacy") :
    execute_query e1 e2 ds p cmd mode = execute_query e1 e2 ds p cmd "suppression" ∧
      api_privacy_mode_valid mode = (mode == "suppression") := by
  constructor
  · unfold execute_query
    cases hv : validate_variables p ds.cols with
    | error m => rfl
    | ok u =>
      cases hf : (match p.condition with
                  | some c => filterRows ds.cols ds.rows c
                  | none => Except.ok ds.rows) with
      | error m => rfl
      | ok filtered =>
        dsimp only
        by_cases he : filtered.isEmpty
        · rw [if_pos he, if_pos he]
        · rw [if_neg he, if_neg he]
          cases p.variable1 with
          | none => rfl
          | some v1 =>
            dsimp only
            rw [if_neg h, if_neg (by decide : ¬("suppression" = "differential_privacy"))]
  · unfold api_privacy_mode_valid
    have h2 : (mode == "differential_privacy") = false := by
      rw [beq_eq_false_iff_ne]
      exact h
    rw [h2, Bool.or_false]

theorem c9_witness :
    execute_query trivSupp trivDP dsW pW "tab sex" "suppresion" =
        execute_query trivSupp trivDP dsW pW "tab sex" "suppression" ∧
      api_privacy_mode_valid "suppresion" = ("suppresion" == "suppression") :=
  c9_default_to_suppression trivSupp trivDP dsW pW "tab sex" "suppresion" (by decide)

/-! ### One-way frequency tables and `value_counts` order

`df[var1].value_counts()` groups the distinct values of the column and sorts
the groups by count, most frequent first; both engines build their one-way
table from it and keep its row order (`set_index`/`reset_index` and the
cellwise protection do not reorder rows). -/

/-- The distinct values of a column in order of first appearance (the
grouping of `value_counts`). -/
def firstOccsAux (seen : List PValue) : List PValue → List PValue
  | [] => []
  | v :: rest =>
    if seen.contains v then firstOccsAux seen rest
    else v :: firstOccsAux (v :: seen) rest

def countOcc (l : List PValue) (v : PValue) : ℕ :=
  (l.filter (fun x => x == v)).length

/-- Non-increasing count order on `(category, count)` rows. -/
def countDesc (p q : PValue × ℕ) : Prop := q.2 ≤ p.2

instance : DecidableRel countDesc :=
  fun p q => inferInstanceAs (Decidable (q.2 ≤ p.2))

instance : IsTotal (PValue × ℕ) countDesc := ⟨fun p q => le_total q.2 p.2⟩

instance : IsTrans (PValue × ℕ) countDesc :=
  ⟨fun _ _ _ h1 h2 => le_trans h2 h1⟩

/-- `Series.value_counts()`: one `(value, count)` row per distinct value,
sorted by count descending (a stable sort; pandas leaves tie order
unspecified, and nothing downstream depends on it). -/
def value_counts (l : List PValue) : List (PValue × ℕ) :=
  List.insertionSort countDesc ((firstOccsAux [] l).map (fun v => (v, countOcc l v)))

/-- The one-column count DataFrame `set_index(var1)["freq"].to_frame()`. -/
def countsTable (counts : List ℕ) : Table :=
  ⟨counts.length, 1, fun i _ => (counts.get? i).map (fun n => (n : ℤ))⟩

/-- The suppressed, formatted `freq` column, in unchanged row order. -/
def suppressCountsColumn (counts : List ℕ) : List String :=
  (List.range counts.length).map
    (fun i => (apply_suppression (writeTable (countsTable counts))).scell i 0)

/-- `SuppressionEngine.create_frequency_table`, one-way case: rows
`(category, protected count)` in `value_counts` order. -/
def suppression_oneway (col : List PValue) : List (PValue × String) :=
  ((value_counts col).map Prod.fst).zip
    (suppressCountsColumn ((value_counts col).map Prod.snd))

/-- Noise application of `apply_differential_privacy` along the `freq`
column, one independent sample per row. -/
def addNoise : List (PValue × ℕ) → ℕ → (ℕ → ℚ) → List (PValue × ℤ)
  | [], _, _ => []
  | (v, c) :: rest, i, noise =>
    (v, dp_noisy_cell (c : ℚ) (noise i)) :: addNoise rest (i + 1) noise

/-- `DifferentialPrivacyEngine.create_frequency_table`, one-way case. -/
def dp_oneway (col : List PValue) (noise : ℕ → ℚ) : List (PValue × ℤ) :=
  addNoise (value_counts col) 0 noise

/-- Claim C10: in both the suppression path and the differential-privacy
path the one-way table rows stay in `value_counts` order — the emitted
category column equals the `value_counts` categories in order — and the true
counts along that order are non-increasing (most frequent first). -/
theorem c10_oneway_value_counts_order (col : List PValue) (noise : ℕ → ℚ) :
    List.Sorted (fun a b : ℕ => b ≤ a) ((value_counts col).map Prod.snd) ∧
      (suppression_oneway col).map Prod.fst = (value_counts col).map Prod.fst ∧
      (dp_oneway col noise).map Prod.fst = (value_counts col).map Prod.fst := by
  refine ⟨?_, ?_, ?_⟩
  · have hs : List.Sorted countDesc (value_counts col) :=
      List.sorted_insertionSort countDesc _
    exact List.Pairwise.map Prod.snd (fun a b hab => hab) hs
  · have h1 : ((value_counts col).map Prod.fst).length ≤
        (suppressCountsColumn ((value_counts col).map Prod.snd)).length := by
      simp [suppressCountsColumn]
    exact List.map_fst_zip _ _ h1
  · have key : ∀ (l : List (PValue × ℕ)) (i : ℕ),
        (addNoise l i noise).map Prod.fst = l.map Prod.fst := by
      intro l
      induction l with
      | nil => intro i; rfl
      | cons p rest ih =>
        intro i
        cases p
        simp [addNoise, ih]
    exact key _ 0

end Tbl
